import Mathlib

/-!
Verification development for the go-kardia consensus gossip subsystem.

Shallow embedding of:
* the consensus reactor and per-peer round-state mirror
  (src/blockchain/headerchain.go, package consensus part),
* the evidence reactor (src/unnamed/part_000, package evidence part),
* the proposal type (src/unnamed/part_000, package types part),
* the header chain rewind (src/blockchain/headerchain.go, package blockchain part).

Go values of type `*cmn.BigInt` are embedded as `BigIntRef`: a pair of the
integer value and an allocation identifier.  The Go method `Equals` compares
values; the Go operators `==` / `!=` on two `*cmn.BigInt` compare pointers,
i.e. allocation identifiers (two distinct allocations always have distinct
identifiers, and equal identifiers imply the same allocation, hence equal
values).  Wall-clock time is embedded as an integer number of seconds passed
in explicitly.  Hashes are embedded as opaque natural numbers; where Go
computes a hash of a structure, the embedding carries the hash as a field of
the structure.
-/

namespace GoKardia

/-- Embedding of a Go `*cmn.BigInt`: `val` is the mathematical value used by
the `Equals`, `Add`, `Cmp` methods; `ptr` is the allocation identifier used
by the Go pointer operators `==` and `!=`. -/
structure BigIntRef where
  val : Int
  ptr : Nat
deriving DecidableEq, Repr

/-- Embedding of `*cmn.BitArray`: `none` is the Go nil pointer, `some bits`
a bit array with the given contents. -/
abbrev BitArr := List Bool

namespace Consensus

/-! Round step constants.  The type `cstypes.RoundStepType` is not under
src/; the spec describes it as the ordered enum NewHeight, NewRound, Propose,
Prevote, PrevoteWait, Precommit, PrecommitWait, Commit, so steps are embedded
as naturals in that order. -/

def RoundStepNewHeight : Nat := 1
def RoundStepNewRound : Nat := 2
def RoundStepPropose : Nat := 3
def RoundStepPrevote : Nat := 4
def RoundStepPrevoteWait : Nat := 5
def RoundStepPrecommit : Nat := 6
def RoundStepPrecommitWait : Nat := 7
def RoundStepCommit : Nat := 8

/-- Modelled from the spec: the function `CompareHRS` (package
consensus/types) is not under src/; the spec defines it as the lexicographic
comparator on (height, round, step).  It compares big-integer values, not
pointers, and returns -1, 0 or 1. -/
def CompareHRS (h1 r1 : BigIntRef) (s1 : Nat) (h2 r2 : BigIntRef) (s2 : Nat) : Int :=
  if h1.val < h2.val then -1
  else if h1.val > h2.val then 1
  else if r1.val < r2.val then -1
  else if r1.val > r2.val then 1
  else if s1 < s2 then -1
  else if s1 > s2 then 1
  else 0

/-- The fields of `cstypes.PeerRoundState` used by the consensus reactor in
src/blockchain/headerchain.go (the mirror of a remote peer). -/
structure PeerRoundState where
  Height : BigIntRef
  Round : BigIntRef
  Step : Nat
  StartTime : Int
  Proposal : Bool
  ProposalBlockHeader : Nat
  ProposalPOLRound : BigIntRef
  ProposalPOL : Option BitArr
  Prevotes : Option BitArr
  Precommits : Option BitArr
  LastCommitRound : BigIntRef
  LastCommit : Option BitArr
  CatchupCommitRound : BigIntRef
  CatchupCommit : Option BitArr
deriving DecidableEq, Repr

/-- `NewRoundStepMessage` from src/blockchain/headerchain.go lines 704-710. -/
structure NewRoundStepMessage where
  Height : BigIntRef
  Round : BigIntRef
  Step : Nat
  SecondsSinceStartTime : Nat
  LastCommitRound : BigIntRef
deriving DecidableEq, Repr

/-- The mirror-update core of `ReceiveNewRoundStep`
(src/blockchain/headerchain.go lines 351-399), i.e. the code run under
`ps.mtx.Lock()` once the message has been decoded and the peer state found.

`now` is the current wall-clock time in seconds.  `fresh` is an allocation
identifier strictly larger than every identifier occurring in `ps` and
`msg`, used for the two `cmn.NewBigInt(-1)` allocations at lines 374
and 397.

Pointer comparisons are embedded faithfully: line 371 uses the value method
`Equals`, while lines 380 and 387 use the Go pointer operators `==` / `!=`
on `*cmn.BigInt` fields, embedded as comparisons of the `ptr` components. -/
def applyNewRoundStep (ps : PeerRoundState) (msg : NewRoundStepMessage)
    (now : Int) (fresh : Nat) : PeerRoundState :=
  -- line 355: ignore duplicates or decreases
  if CompareHRS msg.Height msg.Round msg.Step ps.Height ps.Round ps.Step ≤ 0 then ps
  else
    -- lines 360-364: just remember these values
    let psHeight := ps.Height
    let psRound := ps.Round
    let psCatchupCommitRound := ps.CatchupCommitRound
    let psCatchupCommit := ps.CatchupCommit
    -- line 366: startTime = now - msg.SecondsSinceStartTime seconds
    let startTime := now - (msg.SecondsSinceStartTime : Int)
    -- lines 367-370
    let ps1 := { ps with Height := msg.Height, Round := msg.Round,
                         Step := msg.Step, StartTime := startTime }
    -- lines 371-379: `!psHeight.Equals(msg.Height) || !psRound.Equals(msg.Round)`
    let ps2 :=
      if ¬(psHeight.val = msg.Height.val) ∨ ¬(psRound.val = msg.Round.val) then
        { ps1 with Proposal := false, ProposalBlockHeader := 0,
                   ProposalPOLRound := ⟨-1, fresh⟩, ProposalPOL := none,
                   Prevotes := none, Precommits := none }
      else ps1
    -- line 380: `psHeight == msg.Height && psRound != msg.Round && msg.Round == psCatchupCommitRound`
    -- (pointer comparisons on *cmn.BigInt)
    let ps3 :=
      if psHeight.ptr = msg.Height.ptr ∧ psRound.ptr ≠ msg.Round.ptr ∧
          msg.Round.ptr = psCatchupCommitRound.ptr then
        { ps2 with Precommits := psCatchupCommit }
      else ps2
    -- line 387: `psHeight != msg.Height` (pointer comparison)
    if psHeight.ptr ≠ msg.Height.ptr then
      -- line 389: `psHeight.Add(1).Equals(msg.Height) && psRound.Equals(msg.LastCommitRound)`
      if psHeight.val + 1 = msg.Height.val ∧ psRound.val = msg.LastCommitRound.val then
        { ps3 with LastCommitRound := msg.LastCommitRound,
                   LastCommit := ps3.Precommits,
                   CatchupCommitRound := ⟨-1, fresh + 1⟩, CatchupCommit := none }
      else
        { ps3 with LastCommitRound := msg.LastCommitRound,
                   LastCommit := none,
                   CatchupCommitRound := ⟨-1, fresh + 1⟩, CatchupCommit := none }
    else ps3

/-- Observable effect of the handler `ReceiveNewVote`
(src/blockchain/headerchain.go lines 429-454): which votes were forwarded to
the state machine input queue, and whether the mirror mutex was locked and
unlocked. -/
structure ReceiveVoteEffect where
  enqueued : List Nat
  mutexLocked : Bool
  mutexUnlocked : Bool
deriving DecidableEq, Repr

/-- `ReceiveNewVote` (src/blockchain/headerchain.go lines 429-454).
`decoded` is the result of `generalMsg.Decode`, `hasPeerState` whether the
downcast of the peer state succeeded.  The function body acquires the mutex
and then executes a bare `return` (line 452) before the `defer
ps.mtx.Unlock()` statement is ever reached, so no vote is enqueued and the
mutex is never released. -/
def ReceiveNewVote (running : Bool) (decoded : Option Nat)
    (hasPeerState : Bool) : ReceiveVoteEffect :=
  if !running then ⟨[], false, false⟩
  else
    match decoded with
    | none => ⟨[], false, false⟩
    | some _ =>
      if !hasPeerState then ⟨[], false, false⟩
      else ⟨[], true, false⟩

/-- Header of a proposed block, as used by `SetHasProposal`; the Go call
`proposal.Block.Header().Hash()` is embedded by carrying the header hash as
a field. -/
structure CsHeader where
  hashVal : Nat
deriving DecidableEq, Repr

/-- Hash of a block header (`Header.Hash()` is abstracted as the stored
hash value). -/
def CsHeader.Hash (h : CsHeader) : Nat := h.hashVal

/-- Block of a consensus proposal; only its header is used here. -/
structure CsBlock where
  header : CsHeader
deriving DecidableEq, Repr

/-- The `Block.Header()` accessor. -/
def CsBlock.Header (b : CsBlock) : CsHeader := b.header

/-- The consensus `types.Proposal` as used by src/blockchain/headerchain.go:
heights and rounds are `*cmn.BigInt`, and the proposal carries the proposed
block. -/
structure CsProposal where
  Height : BigIntRef
  Round : BigIntRef
  POLRound : BigIntRef
  Block : CsBlock
deriving DecidableEq, Repr

/-- `SetHasProposal` (src/blockchain/headerchain.go lines 776-791), the body
run under the peer mutex. -/
def SetHasProposal (ps : PeerRoundState) (proposal : CsProposal) : PeerRoundState :=
  -- line 780: `!ps.PRS.Height.Equals(proposal.Height) || !ps.PRS.Round.Equals(proposal.Round)`
  if ¬(ps.Height.val = proposal.Height.val) ∨ ¬(ps.Round.val = proposal.Round.val) then ps
  -- line 783: `if ps.PRS.Proposal`
  else if ps.Proposal then ps
  else
    { ps with Proposal := true,
              ProposalBlockHeader := proposal.Block.Header.Hash,
              ProposalPOLRound := proposal.POLRound,
              ProposalPOL := none }

/-! Concrete sample mirrors and messages.  Allocation identifiers below 100
are used for values already held by a mirror, identifiers of 100 and above
for the fields of a freshly decoded message: a decoded message consists of
fresh allocations, so its identifiers differ from all of the mirror's. -/

/-- Sample mirror in the initial state produced by `NewPeerState`. -/
def psW1 : PeerRoundState :=
  { Height := ⟨0, 1⟩, Round := ⟨-1, 2⟩, Step := RoundStepNewHeight, StartTime := 0,
    Proposal := false, ProposalBlockHeader := 0, ProposalPOLRound := ⟨-1, 3⟩,
    ProposalPOL := none, Prevotes := none, Precommits := none,
    LastCommitRound := ⟨-1, 4⟩, LastCommit := none,
    CatchupCommitRound := ⟨-1, 5⟩, CatchupCommit := none }

/-- Sample message at the same (height, round, step) as `psW1`: dropped. -/
def msgW1low : NewRoundStepMessage :=
  { Height := ⟨0, 104⟩, Round := ⟨-1, 105⟩, Step := RoundStepNewHeight,
    SecondsSinceStartTime := 0, LastCommitRound := ⟨-1, 106⟩ }

/-- Sample message strictly above `psW1` in HRS order: applied. -/
def msgW1 : NewRoundStepMessage :=
  { Height := ⟨1, 101⟩, Round := ⟨0, 102⟩, Step := RoundStepPropose,
    SecondsSinceStartTime := 0, LastCommitRound := ⟨-1, 103⟩ }

/-- Mirror at height 1, round 0 holding a precommit bitmap, about to see its
height advance by one. -/
def psC2a : PeerRoundState :=
  { Height := ⟨1, 1⟩, Round := ⟨0, 2⟩, Step := RoundStepPrecommit, StartTime := 0,
    Proposal := false, ProposalBlockHeader := 0, ProposalPOLRound := ⟨-1, 3⟩,
    ProposalPOL := none, Prevotes := some [true, true, false],
    Precommits := some [true, false, true],
    LastCommitRound := ⟨-1, 4⟩, LastCommit := none,
    CatchupCommitRound := ⟨-1, 5⟩, CatchupCommit := none }

/-- Message advancing `psC2a` to height 2 with last_commit_round equal to
the mirror's prior round 0. -/
def msgC2a : NewRoundStepMessage :=
  { Height := ⟨2, 101⟩, Round := ⟨0, 102⟩, Step := RoundStepNewHeight,
    SecondsSinceStartTime := 0, LastCommitRound := ⟨0, 103⟩ }

/-- Mirror at height 5, round 0 holding a last-commit bitmap. -/
def psC2b : PeerRoundState :=
  { Height := ⟨5, 11⟩, Round := ⟨0, 12⟩, Step := RoundStepPropose, StartTime := 0,
    Proposal := false, ProposalBlockHeader := 0, ProposalPOLRound := ⟨-1, 13⟩,
    ProposalPOL := none, Prevotes := none, Precommits := some [false, true],
    LastCommitRound := ⟨0, 14⟩, LastCommit := some [true],
    CatchupCommitRound := ⟨-1, 15⟩, CatchupCommit := none }

/-- Message at the same height 5 as `psC2b`, only the round advances. -/
def msgC2b : NewRoundStepMessage :=
  { Height := ⟨5, 111⟩, Round := ⟨1, 112⟩, Step := RoundStepPropose,
    SecondsSinceStartTime := 0, LastCommitRound := ⟨2, 113⟩ }

/-- Mirror at (height 5, round 1) with catchup_commit_round 3 and a held
catchup commit bitmap: the spec's catchup-restore example. -/
def psC3 : PeerRoundState :=
  { Height := ⟨5, 21⟩, Round := ⟨1, 22⟩, Step := RoundStepPropose, StartTime := 0,
    Proposal := false, ProposalBlockHeader := 0, ProposalPOLRound := ⟨-1, 23⟩,
    ProposalPOL := none, Prevotes := none, Precommits := some [false, false],
    LastCommitRound := ⟨0, 24⟩, LastCommit := none,
    CatchupCommitRound := ⟨3, 25⟩, CatchupCommit := some [true, true] }

/-- Message (height 5, round 3, step Precommit) reaching the catchup round
of `psC3`. -/
def msgC3 : NewRoundStepMessage :=
  { Height := ⟨5, 121⟩, Round := ⟨3, 122⟩, Step := RoundStepPrecommit,
    SecondsSinceStartTime := 0, LastCommitRound := ⟨0, 123⟩ }

/-- Sample proposal at (height 2, round 0) with block header hash 777. -/
def pC7 : CsProposal :=
  { Height := ⟨2, 50⟩, Round := ⟨0, 51⟩, POLRound := ⟨-1, 52⟩,
    Block := ⟨⟨777⟩⟩ }

/-- Mirror whose height 1 mismatches the height 2 of `pC7`. -/
def psC7a : PeerRoundState :=
  { Height := ⟨1, 1⟩, Round := ⟨0, 2⟩, Step := RoundStepPropose, StartTime := 0,
    Proposal := false, ProposalBlockHeader := 0, ProposalPOLRound := ⟨-1, 3⟩,
    ProposalPOL := none, Prevotes := none, Precommits := none,
    LastCommitRound := ⟨-1, 4⟩, LastCommit := none,
    CatchupCommitRound := ⟨-1, 5⟩, CatchupCommit := none }

/-- Mirror matching the (height, round) of `pC7`, no proposal yet. -/
def psC7b : PeerRoundState :=
  { Height := ⟨2, 1⟩, Round := ⟨0, 2⟩, Step := RoundStepPropose, StartTime := 0,
    Proposal := false, ProposalBlockHeader := 0, ProposalPOLRound := ⟨-1, 3⟩,
    ProposalPOL := none, Prevotes := none, Precommits := none,
    LastCommitRound := ⟨-1, 4⟩, LastCommit := none,
    CatchupCommitRound := ⟨-1, 5⟩, CatchupCommit := none }

end Consensus

namespace KTypes

/-- Go conversion to `uint32`: the value modulo 2^32. -/
def uint32OfInt (z : Int) : Nat := (z % 4294967296).toNat

/-- The `types.Proposal` of src/unnamed/part_000 lines 33-40.  `Height` is a
`uint64`, `Round` and `POLRound` are `uint32` (embedded as naturals below
the corresponding bound), `POLBlockID` is opaque. -/
structure Proposal where
  Height : Nat
  Round : Nat
  POLRound : Nat
  Timestamp : Nat
  POLBlockID : Nat
deriving DecidableEq, Repr

/-- `NewProposal` (src/unnamed/part_000 lines 44-52); `now` is the result of
`time.Now().Unix()`. -/
def NewProposal (height round polRound polBlockID now : Nat) : Proposal :=
  { Height := height, Round := round, Timestamp := now,
    POLRound := polRound, POLBlockID := polBlockID }

end KTypes

namespace Evidence

/-- An evidence item as seen by the evidence reactor: the accessors
`ev.Height()` (a `uint64`) and `ev.Time()` (a timestamp, embedded as
nanoseconds). -/
structure EvidenceItem where
  height : Nat
  time : Int
deriving DecidableEq, Repr

/-- Go `int64` wrap-around of an integer. -/
def wrap64 (z : Int) : Int := (z + 9223372036854775808) % 18446744073709551616 - 9223372036854775808

/-- Go conversion `int64(u)` of a `uint64` value. -/
def int64OfUint64 (n : Nat) : Int := wrap64 (n : Int)

/-- Go `time.Time.Sub`: the difference saturates at the extreme `Duration`
values instead of wrapping. -/
def satDuration (z : Int) : Int :=
  if z > 9223372036854775807 then 9223372036854775807
  else if z < -9223372036854775808 then -9223372036854775808
  else z

/-- `checkSendEvidenceMessage` (src/unnamed/part_000 lines 232-284).

`peerState` is `none` when the downcast of `peer.Get(types.PeerStateKey)`
fails (peer has no state yet), otherwise `some peerHeight`
(`peerState.GetHeight()`).  `maxAgeNumBlocks` and `maxAgeDuration` are
`params.MaxAgeNumBlocks` and `params.MaxAgeDuration`; `lastBlockTime` is
`evR.evpool.State().LastBlockTime` in nanoseconds.  The age comparison
multiplies `MaxAgeDuration` by `time.Millisecond` (10^6 nanoseconds),
exactly as line 265 does. -/
def checkSendEvidenceMessage (peerState : Option Nat)
    (maxAgeNumBlocks maxAgeDuration lastBlockTime : Int)
    (ev : EvidenceItem) : List EvidenceItem × Bool :=
  match peerState with
  | none => ([], true)
  | some peerHeight =>
    let ageDuration := satDuration (lastBlockTime - ev.time)
    let ageNumBlocks := wrap64 (int64OfUint64 peerHeight - int64OfUint64 ev.height)
    if peerHeight < ev.height then ([], true)
    else if ageNumBlocks > maxAgeNumBlocks ∨
        ageDuration > wrap64 (maxAgeDuration * 1000000) then ([], false)
    else ([ev], false)

/-- Outcome of `evpool.AddEvidence` as discriminated by the type switch in
`Receive` (src/unnamed/part_000 lines 162-173): nil error, a
`*types.ErrEvidenceInvalid`, or any other (transient) error. -/
inductive AddEvidenceResult where
  | ok
  | evidenceInvalid
  | transientErr
deriving DecidableEq, Repr

/-- The per-batch loop of `Receive` (src/unnamed/part_000 lines 161-174):
walk the decoded evidence list calling `AddEvidence` on each item; on
`*types.ErrEvidenceInvalid` stop the peer (`StopPeerForError`) and return,
otherwise continue.  Returns the items on which `AddEvidence` was called and
whether the source peer was disconnected. -/
def receiveEvidenceList (addEvidence : Nat → AddEvidenceResult) :
    List Nat → List Nat × Bool
  | [] => ([], false)
  | e :: rest =>
    match addEvidence e with
    | .evidenceInvalid => ([e], true)
    | .ok =>
      let r := receiveEvidenceList addEvidence rest
      (e :: r.1, r.2)
    | .transientErr =>
      let r := receiveEvidenceList addEvidence rest
      (e :: r.1, r.2)

/-- `Receive` (src/unnamed/part_000 lines 154-175): a decode failure stops
the peer immediately; otherwise the decoded batch is processed by
`receiveEvidenceList`. -/
def Receive (addEvidence : Nat → AddEvidenceResult)
    (decoded : Option (List Nat)) : List Nat × Bool :=
  match decoded with
  | none => ([], true)
  | some evis => receiveEvidenceList addEvidence evis

/-- Sample `AddEvidence` oracle: item 3 is invalid evidence, item 4 fails
transiently, all other items are accepted. -/
def addEvW : Nat → AddEvidenceResult := fun e =>
  if e = 3 then .evidenceInvalid else if e = 4 then .transientErr else .ok

end Evidence

namespace Blockchain

/-- A block header as used by `SetHead` (src/blockchain/headerchain.go):
its height, the hash linking to the predecessor, and its own hash
(`Header.Hash()` abstracted as a stored field). -/
structure KHeader where
  height : Nat
  lastCommitHash : Nat
  hhash : Nat
deriving DecidableEq, Repr

/-- The state of a `HeaderChain` together with its backing store:
`dbHeaders` is `rawdb.ReadHeader` keyed by (hash, height), `dbCanonical` is
`rawdb.ReadCanonicalHash`, `dbHeadHeaderHash` the persisted head pointer;
the two LRU caches are embedded as maps (capacity eviction is irrelevant to
the claims); `currentHeader` is the atomic current-header pointer (`none`
is the Go nil pointer). -/
structure HCState where
  dbHeaders : Nat → Nat → Option KHeader
  dbCanonical : Nat → Option Nat
  dbHeadHeaderHash : Nat
  headerCache : Nat → Option KHeader
  heightCache : Nat → Option Nat
  currentHeader : Option KHeader
  currentHeaderHash : Nat
  genesisHeader : KHeader

/-- `GetHeader` (src/blockchain/headerchain.go lines 90-102): look up the
header cache by hash; on a miss read the store by (hash, height) and
populate the cache. -/
def GetHeader (hc : HCState) (hash height : Nat) : Option KHeader × HCState :=
  match hc.headerCache hash with
  | some header => (some header, hc)
  | none =>
    match hc.dbHeaders hash height with
    | none => (none, hc)
    | some header =>
      (some header,
       { hc with headerCache := fun h => if h = hash then some header else hc.headerCache h })

/-- A write batch: the header deletions (`rawdb.DeleteHeader`) and the
canonical-hash deletions (`rawdb.DeleteCanonicalHash`) queued before
`batch.Write()`. -/
structure Batch where
  delHeaders : List (Nat × Nat)
  delCanonical : List Nat
deriving DecidableEq, Repr

/-- `batch.Write()`: apply the queued deletions to the store. -/
def batchWrite (hc : HCState) (b : Batch) : HCState :=
  { hc with
    dbHeaders := fun h n => if (h, n) ∈ b.delHeaders then none else hc.dbHeaders h n,
    dbCanonical := fun i => if i ∈ b.delCanonical then none else hc.dbCanonical i }

/-- The rewind loop of `SetHead` (src/blockchain/headerchain.go lines
154-163): while the current header exists and sits above `head`, invoke the
delete callback and `DeleteHeader` on it (both recorded with the same
(hash, height) arguments: `calls` collects the callback invocations, the
batch collects the `DeleteHeader` deletions), then walk to the predecessor
via `GetHeader(hdr.LastCommitHash, hdr.Height-1)`.  The loop is given a
fuel bound; `SetHead` passes one more than the starting height, which under
the well-formedness hypotheses of the theorems below is never exhausted. -/
def setHeadLoop (head : Nat) :
    Nat → HCState → Batch → List (Nat × Nat) → HCState × Batch × List (Nat × Nat)
  | 0, hc, batch, calls => (hc, batch, calls)
  | fuel + 1, hc, batch, calls =>
    match hc.currentHeader with
    | none => (hc, batch, calls)
    | some hdr =>
      if head < hdr.height then
        setHeadLoop head fuel
          { (GetHeader hc hdr.lastCommitHash (hdr.height - 1)).2 with
            currentHeader := (GetHeader hc hdr.lastCommitHash (hdr.height - 1)).1 }
          { batch with delHeaders := batch.delHeaders ++ [(hdr.hhash, hdr.height)] }
          (calls ++ [(hdr.hhash, hdr.height)])
      else (hc, batch, calls)

/-- The canonical-hash deletion loop of `SetHead` (lines 165-167):
`for i := height; i > head; i--  DeleteCanonicalHash(batch, i)`, returned as
the list of deleted heights. -/
def deleteCanonicalFrom (head : Nat) : Nat → List Nat
  | 0 => []
  | i + 1 => if head < i + 1 then (i + 1) :: deleteCanonicalFrom head i else []

/-- `SetHead` (src/blockchain/headerchain.go lines 147-180).  Returns the
final state, the list of delete-callback invocations, and the list of
`DeleteHeader` deletions written through the batch.  The delete callback's
own batch writes are abstracted away; only its invocations are recorded. -/
def SetHead (hc : HCState) (head : Nat) : HCState × List (Nat × Nat) × List (Nat × Nat) :=
  -- lines 148-152: capture the starting height
  let height0 := match hc.currentHeader with
    | some hdr => hdr.height
    | none => 0
  -- lines 154-163: rewind loop
  let r := setHeadLoop head (height0 + 1) hc ⟨[], []⟩ []
  -- lines 165-167: roll back the canonical chain numbering
  let batch2 := { r.2.1 with
    delCanonical := r.2.1.delCanonical ++ deleteCanonicalFrom head height0 }
  -- line 168: batch.Write()
  let hc2 := batchWrite r.1 batch2
  -- lines 171-172: purge both caches
  let hc3 := { hc2 with headerCache := fun _ => none, heightCache := fun _ => none }
  -- lines 174-176: fall back to genesis if the walk ended on a nil header
  let hc4 := match hc3.currentHeader with
    | none => { hc3 with currentHeader := some hc3.genesisHeader }
    | some _ => hc3
  -- lines 177-179: recompute and persist the head header hash
  let hc5 := match hc4.currentHeader with
    | some hdr => { hc4 with currentHeaderHash := hdr.hhash }
    | none => hc4
  ({ hc5 with dbHeadHeaderHash := hc5.currentHeaderHash }, r.2.2, batch2.delHeaders)

/-- Store well-formedness: a header stored under key (hash, height) carries
that height. -/
def heightKeyed (db : Nat → Nat → Option KHeader) : Prop :=
  ∀ h n hdr, db h n = some hdr → hdr.height = n

/-- Store well-formedness: a stored header's predecessor (looked up by its
last_commit_hash) sits exactly one height below it. -/
def parentLinked (db : Nat → Nat → Option KHeader) : Prop :=
  ∀ h n hdr m pred, db h n = some hdr →
    db hdr.lastCommitHash m = some pred → m + 1 = n

/-- Cache well-formedness: every cached header is stored in the database
under its hash and height. -/
def cacheConsistent (db : Nat → Nat → Option KHeader)
    (cache : Nat → Option KHeader) : Prop :=
  ∀ h hdr, cache h = some hdr → db h hdr.height = some hdr

/-- A header that is stored in the database under some hash. -/
def inDb (db : Nat → Nat → Option KHeader) (hdr : KHeader) : Prop :=
  ∃ h, db h hdr.height = some hdr

/-- Sample genesis header. -/
def hW0 : KHeader := ⟨0, 999, 100⟩

/-- Sample header at height 1, child of `hW0`. -/
def hW1 : KHeader := ⟨1, 100, 101⟩

/-- Sample header at height 2, child of `hW1`. -/
def hW2 : KHeader := ⟨2, 101, 102⟩

/-- Sample header store holding the three-header chain. -/
def dbW : Nat → Nat → Option KHeader := fun h n =>
  if h = 102 ∧ n = 2 then some hW2
  else if h = 101 ∧ n = 1 then some hW1
  else if h = 100 ∧ n = 0 then some hW0
  else none

/-- Sample canonical-hash table for the three-header chain. -/
def canonW : Nat → Option Nat := fun i =>
  if i = 0 then some 100 else if i = 1 then some 101
  else if i = 2 then some 102 else none

/-- Sample header chain state: current header `hW2`, empty caches. -/
def hcW : HCState :=
  { dbHeaders := dbW, dbCanonical := canonW, dbHeadHeaderHash := 102,
    headerCache := fun _ => none, heightCache := fun _ => none,
    currentHeader := some hW2, currentHeaderHash := 102, genesisHeader := hW0 }

end Blockchain

end GoKardia

namespace GoKardia

/-- Reflexivity of the HRS comparator. -/
theorem CompareHRS_self (h r : BigIntRef) (s : Nat) :
    Consensus.CompareHRS h r s h r s = 0 := by
  simp [Consensus.CompareHRS]

/-- C1: a NewRoundStep message whose (height, round, step) is at most the
mirror's current triple in the lexicographic HRS order leaves the mirror
completely unchanged; an applied message sets the mirror's (height, round,
step) to the message's values; consequently the triple never decreases. -/
theorem c1_new_round_step_hrs_monotonic (ps : Consensus.PeerRoundState)
    (msg : Consensus.NewRoundStepMessage) (now : Int) (fresh : Nat) :
    (Consensus.CompareHRS msg.Height msg.Round msg.Step ps.Height ps.Round ps.Step ≤ 0 →
      Consensus.applyNewRoundStep ps msg now fresh = ps) ∧
    (0 < Consensus.CompareHRS msg.Height msg.Round msg.Step ps.Height ps.Round ps.Step →
      (Consensus.applyNewRoundStep ps msg now fresh).Height = msg.Height ∧
      (Consensus.applyNewRoundStep ps msg now fresh).Round = msg.Round ∧
      (Consensus.applyNewRoundStep ps msg now fresh).Step = msg.Step) ∧
    0 ≤ Consensus.CompareHRS (Consensus.applyNewRoundStep ps msg now fresh).Height
          (Consensus.applyNewRoundStep ps msg now fresh).Round
          (Consensus.applyNewRoundStep ps msg now fresh).Step ps.Height ps.Round ps.Step := by
  by_cases hle :
      Consensus.CompareHRS msg.Height msg.Round msg.Step ps.Height ps.Round ps.Step ≤ 0
  · refine ⟨fun _ => ?_, fun hgt => absurd hle (by omega), ?_⟩
    · simp [Consensus.applyNewRoundStep, hle]
    · simp [Consensus.applyNewRoundStep, hle, CompareHRS_self]
  · have hHRS : (Consensus.applyNewRoundStep ps msg now fresh).Height = msg.Height ∧
        (Consensus.applyNewRoundStep ps msg now fresh).Round = msg.Round ∧
        (Consensus.applyNewRoundStep ps msg now fresh).Step = msg.Step := by
      simp only [Consensus.applyNewRoundStep, hle, if_false]
      split_ifs <;> simp
    refine ⟨fun h => absurd h hle, fun _ => hHRS, ?_⟩
    rw [hHRS.1, hHRS.2.1, hHRS.2.2]
    omega

/-- Witness for C1: the monotonicity theorem applied at concrete inputs, an
equal-HRS message (dropped) and a strictly greater one (applied). -/
theorem c1_witness :
    Consensus.applyNewRoundStep Consensus.psW1 Consensus.msgW1low 0 200 = Consensus.psW1 ∧
    ((Consensus.applyNewRoundStep Consensus.psW1 Consensus.msgW1 0 200).Height = Consensus.msgW1.Height ∧
     (Consensus.applyNewRoundStep Consensus.psW1 Consensus.msgW1 0 200).Round = Consensus.msgW1.Round ∧
     (Consensus.applyNewRoundStep Consensus.psW1 Consensus.msgW1 0 200).Step = Consensus.msgW1.Step) :=
  ⟨(c1_new_round_step_hrs_monotonic Consensus.psW1 Consensus.msgW1low 0 200).1 (by decide),
   (c1_new_round_step_hrs_monotonic Consensus.psW1 Consensus.msgW1 0 200).2.1 (by decide)⟩

/-- C2, evaluation at the failing inputs: the message `msgC2a` advances the
height of `psC2a` by exactly one and the prior round equals the message's
last_commit_round, yet the updated last_commit is nil rather than the
pre-update precommits bitmap, because line 391 reads `ps.PRS.Precommits`
after line 378 already cleared it.  Moreover the same-height message
`msgC2b` still takes the height-shift branch (line 387 compares `*cmn.BigInt`
pointers, and a decoded message is a fresh allocation), overwriting
last_commit and last_commit_round. -/
theorem c2_last_commit_shift_eval :
    Consensus.psC2a.Precommits = some [true, false, true] ∧
    Consensus.msgC2a.Height.val = Consensus.psC2a.Height.val + 1 ∧
    Consensus.psC2a.Round.val = Consensus.msgC2a.LastCommitRound.val ∧
    0 < Consensus.CompareHRS Consensus.msgC2a.Height Consensus.msgC2a.Round
        Consensus.msgC2a.Step Consensus.psC2a.Height Consensus.psC2a.Round Consensus.psC2a.Step ∧
    (Consensus.applyNewRoundStep Consensus.psC2a Consensus.msgC2a 0 500).LastCommit = none ∧
    Consensus.msgC2b.Height.val = Consensus.psC2b.Height.val ∧
    Consensus.psC2b.LastCommit = some [true] ∧
    0 < Consensus.CompareHRS Consensus.msgC2b.Height Consensus.msgC2b.Round
        Consensus.msgC2b.Step Consensus.psC2b.Height Consensus.psC2b.Round Consensus.psC2b.Step ∧
    (Consensus.applyNewRoundStep Consensus.psC2b Consensus.msgC2b 0 500).LastCommit = none ∧
    (Consensus.applyNewRoundStep Consensus.psC2b Consensus.msgC2b 0 500).LastCommitRound.val =
      Consensus.msgC2b.LastCommitRound.val := by
  decide

/-- C3, evaluation at the failing input (the spec's own catchup-restore
example): the mirror `psC3` sits at (height 5, round 1) with
catchup_commit_round 3 and catchup_commit `[true, true]`; the applied
message `msgC3` is (height 5, round 3, step Precommit).  The claim says the
updated precommits equal the held catchup commit, but line 380 compares
`*cmn.BigInt` pointers, which for a freshly decoded message are never equal
to the mirror's, so the restore branch does not fire and precommits end up
nil. -/
theorem c3_catchup_restore_eval :
    Consensus.psC3.CatchupCommit = some [true, true] ∧
    Consensus.psC3.Height.val = Consensus.msgC3.Height.val ∧
    Consensus.psC3.Round.val ≠ Consensus.msgC3.Round.val ∧
    Consensus.msgC3.Round.val = Consensus.psC3.CatchupCommitRound.val ∧
    0 < Consensus.CompareHRS Consensus.msgC3.Height Consensus.msgC3.Round
        Consensus.msgC3.Step Consensus.psC3.Height Consensus.psC3.Round Consensus.psC3.Step ∧
    (Consensus.applyNewRoundStep Consensus.psC3 Consensus.msgC3 0 600).Precommits = none := by
  decide

/-- C6, evaluation at the failing input: with the reactor running, a vote
message that decodes successfully and a peer that has a mirror, the handler
`ReceiveNewVote` acquires the mirror mutex, enqueues nothing to the state
machine input queue, and returns without ever releasing the mutex. -/
theorem c6_receive_new_vote_eval :
    (Consensus.ReceiveNewVote true (some 7) true).enqueued = [] ∧
    (Consensus.ReceiveNewVote true (some 7) true).mutexLocked = true ∧
    (Consensus.ReceiveNewVote true (some 7) true).mutexUnlocked = false := by
  decide

/-- C7: `SetHasProposal` is side-effect-free on a (height, round) mismatch
or when a proposal is already recorded; it is idempotent; and an applied
call records proposal = true, the proposal's block header hash, the
proposal's POL round, and a nil proposal POL bitmap. -/
theorem c7_set_has_proposal_idempotent (ps : Consensus.PeerRoundState)
    (p : Consensus.CsProposal) :
    ((¬(ps.Height.val = p.Height.val) ∨ ¬(ps.Round.val = p.Round.val) ∨ ps.Proposal = true) →
      Consensus.SetHasProposal ps p = ps) ∧
    Consensus.SetHasProposal (Consensus.SetHasProposal ps p) p = Consensus.SetHasProposal ps p ∧
    (ps.Height.val = p.Height.val → ps.Round.val = p.Round.val → ps.Proposal = false →
      (Consensus.SetHasProposal ps p).Proposal = true ∧
      (Consensus.SetHasProposal ps p).ProposalBlockHeader = p.Block.Header.Hash ∧
      (Consensus.SetHasProposal ps p).ProposalPOLRound = p.POLRound ∧
      (Consensus.SetHasProposal ps p).ProposalPOL = none) := by
  by_cases hm : ¬(ps.Height.val = p.Height.val) ∨ ¬(ps.Round.val = p.Round.val)
  · have e : Consensus.SetHasProposal ps p = ps := by
      simp only [Consensus.SetHasProposal, if_pos hm]
    refine ⟨fun _ => e, by rw [e, e], fun hH hR _ => ?_⟩
    rcases hm with hm | hm
    · exact absurd hH hm
    · exact absurd hR hm
  · push_neg at hm
    by_cases hp : ps.Proposal
    · have e : Consensus.SetHasProposal ps p = ps := by
        simp only [Consensus.SetHasProposal]
        rw [if_neg (by simp [hm.1, hm.2]), if_pos hp]
      refine ⟨fun _ => e, by rw [e, e], fun _ _ hfalse => ?_⟩
      rw [hp] at hfalse
      exact absurd hfalse (by simp)
    · have e : Consensus.SetHasProposal ps p =
          { ps with Proposal := true,
                    ProposalBlockHeader := p.Block.Header.Hash,
                    ProposalPOLRound := p.POLRound,
                    ProposalPOL := none } := by
        simp only [Consensus.SetHasProposal]
        rw [if_neg (by simp [hm.1, hm.2]), if_neg hp]
      constructor
      · intro h
        rcases h with h | h | h
        · exact absurd hm.1 h
        · exact absurd hm.2 h
        · exact absurd h (by simp [hp])
      refine ⟨?_, fun _ _ _ => by rw [e]; exact ⟨rfl, rfl, rfl, rfl⟩⟩
      rw [e]
      simp only [Consensus.SetHasProposal]
      rw [if_neg (by simp [hm.1, hm.2])]
      simp

/-- Witness for C7: the theorem applied at a mismatching mirror (no-op) and
at a matching mirror (fields recorded). -/
theorem c7_witness :
    Consensus.SetHasProposal Consensus.psC7a Consensus.pC7 = Consensus.psC7a ∧
    ((Consensus.SetHasProposal Consensus.psC7b Consensus.pC7).Proposal = true ∧
     (Consensus.SetHasProposal Consensus.psC7b Consensus.pC7).ProposalBlockHeader =
       Consensus.pC7.Block.Header.Hash ∧
     (Consensus.SetHasProposal Consensus.psC7b Consensus.pC7).ProposalPOLRound =
       Consensus.pC7.POLRound ∧
     (Consensus.SetHasProposal Consensus.psC7b Consensus.pC7).ProposalPOL = none) :=
  ⟨(c7_set_has_proposal_idempotent Consensus.psC7a Consensus.pC7).1 (by decide),
   (c7_set_has_proposal_idempotent Consensus.psC7b Consensus.pC7).2.2
     (by decide) (by decide) (by decide)⟩

/-- An int64 value in range is unchanged by the wrap. -/
theorem wrap64_eq_self (z : Int) (h1 : -9223372036854775808 ≤ z)
    (h2 : z < 9223372036854775808) : Evidence.wrap64 z = z := by
  unfold Evidence.wrap64
  omega

/-- A duration difference in range is unchanged by the saturation. -/
theorem satDuration_eq_self (z : Int) (h1 : -9223372036854775808 ≤ z)
    (h2 : z < 9223372036854775808) : Evidence.satDuration z = z := by
  unfold Evidence.satDuration
  split_ifs <;> omega

/-- C4, counterexample: peer at height 10 with a state, evidence at height
10, max_age_blocks 100, max_age_duration 1000, and an age duration of 2000.
The claim says the evidence is skipped (age_duration 2000 exceeds
max_age_duration 1000, with no unit conversion), but the code compares
against max_age_duration multiplied by time.Millisecond (10^6), so it sends
the evidence. -/
theorem c4_counterexample :
    Evidence.checkSendEvidenceMessage (some 10) 100 1000 3000 ⟨10, 1000⟩ =
      ([⟨10, 1000⟩], false) ∧
    ((3000 : Int) - 1000 > 1000) ∧ ¬(10 < 10) ∧ ((10 : Int) - 10 ≤ 100) := by
  decide

/-- C4, amended: with the code's unit conversion (the duration threshold is
max_age_duration multiplied by 10^6 nanoseconds) and the peer-behind check
taking precedence, `checkSendEvidenceMessage` returns (empty, true) when the
peer has no state or is behind the evidence, (empty, false) when the
evidence is too old, and (the singleton evidence, false) otherwise.  The
bounds keep all int64 conversions and the duration arithmetic exact. -/
theorem c4_check_send_amended (peerHeight : Nat) (mb md lastBlockTime : Int)
    (ev : Evidence.EvidenceItem)
    (hph : peerHeight < 9223372036854775808) (hevh : ev.height < 9223372036854775808)
    (hmd0 : 0 ≤ md) (hmd : md < 8796093022208)
    (hd1 : -9223372036854775808 ≤ lastBlockTime - ev.time)
    (hd2 : lastBlockTime - ev.time < 9223372036854775808) :
    Evidence.checkSendEvidenceMessage none mb md lastBlockTime ev = ([], true) ∧
    (peerHeight < ev.height →
      Evidence.checkSendEvidenceMessage (some peerHeight) mb md lastBlockTime ev = ([], true)) ∧
    (ev.height ≤ peerHeight →
      ((peerHeight : Int) - (ev.height : Int) > mb ∨
        lastBlockTime - ev.time > md * 1000000) →
      Evidence.checkSendEvidenceMessage (some peerHeight) mb md lastBlockTime ev = ([], false)) ∧
    (ev.height ≤ peerHeight →
      ¬((peerHeight : Int) - (ev.height : Int) > mb ∨
        lastBlockTime - ev.time > md * 1000000) →
      Evidence.checkSendEvidenceMessage (some peerHeight) mb md lastBlockTime ev = ([ev], false)) := by
  have e1 : Evidence.wrap64 (Evidence.int64OfUint64 peerHeight -
      Evidence.int64OfUint64 ev.height) = (peerHeight : Int) - (ev.height : Int) := by
    unfold Evidence.int64OfUint64 Evidence.wrap64
    omega
  have e2 : Evidence.satDuration (lastBlockTime - ev.time) = lastBlockTime - ev.time :=
    satDuration_eq_self _ hd1 hd2
  have e3 : Evidence.wrap64 (md * 1000000) = md * 1000000 := by
    apply wrap64_eq_self <;> omega
  refine ⟨rfl, fun hb => ?_, fun hge hage => ?_, fun hge hage => ?_⟩
  · simp only [Evidence.checkSendEvidenceMessage]
    rw [if_pos hb]
  · simp only [Evidence.checkSendEvidenceMessage, e1, e2, e3]
    rw [if_neg (by omega), if_pos hage]
  · simp only [Evidence.checkSendEvidenceMessage, e1, e2, e3]
    rw [if_neg (by omega), if_neg hage]

/-- Witness for C4's amended theorem: at a peer with a state at height 200
and evidence at height 150 with an age of 10 blocks inside all limits, the
evidence is sent without retry; at a peer at height 50 behind the evidence,
the reactor retries. -/
theorem c4_witness :
    Evidence.checkSendEvidenceMessage (some 200) 100 1000 3000 ⟨150, 1000⟩ =
      ([⟨150, 1000⟩], false) ∧
    Evidence.checkSendEvidenceMessage (some 50) 100 1000 3000 ⟨150, 1000⟩ = ([], true) :=
  ⟨(c4_check_send_amended 200 100 1000 3000 ⟨150, 1000⟩ (by decide) (by decide)
      (by decide) (by decide) (by decide) (by decide)).2.2.2 (by decide) (by decide),
   (c4_check_send_amended 50 100 1000 3000 ⟨150, 1000⟩ (by decide) (by decide)
      (by decide) (by decide) (by decide) (by decide)).2.1 (by decide)⟩

/-- A batch with no invalid item is processed in full without disconnecting
the peer. -/
theorem receiveEvidenceList_all_valid (f : Nat → Evidence.AddEvidenceResult) :
    ∀ evis : List Nat, (∀ x ∈ evis, f x ≠ Evidence.AddEvidenceResult.evidenceInvalid) →
      Evidence.receiveEvidenceList f evis = (evis, false) := by
  intro evis
  induction evis with
  | nil => intro _; rfl
  | cons e rest ih =>
    intro h
    have he : f e ≠ Evidence.AddEvidenceResult.evidenceInvalid :=
      h e (List.mem_cons_self e rest)
    have hrest := ih (fun x hx => h x (List.mem_cons_of_mem e hx))
    cases hfe : f e with
    | evidenceInvalid => exact absurd hfe he
    | ok => simp [Evidence.receiveEvidenceList, hfe, hrest]
    | transientErr => simp [Evidence.receiveEvidenceList, hfe, hrest]

/-- Processing stops at the first invalid item: everything before it and the
item itself are passed to AddEvidence, nothing after it, and the peer is
disconnected. -/
theorem receiveEvidenceList_first_invalid (f : Nat → Evidence.AddEvidenceResult) :
    ∀ (pre : List Nat) (e : Nat) (post : List Nat),
      (∀ x ∈ pre, f x ≠ Evidence.AddEvidenceResult.evidenceInvalid) →
      f e = Evidence.AddEvidenceResult.evidenceInvalid →
      Evidence.receiveEvidenceList f (pre ++ e :: post) = (pre ++ [e], true) := by
  intro pre
  induction pre with
  | nil =>
    intro e post _ hinv
    simp [Evidence.receiveEvidenceList, hinv]
  | cons a rest ih =>
    intro e post h hinv
    have ha : f a ≠ Evidence.AddEvidenceResult.evidenceInvalid :=
      h a (List.mem_cons_self a rest)
    have hrest := ih e post (fun x hx => h x (List.mem_cons_of_mem a hx)) hinv
    cases hfa : f a with
    | evidenceInvalid => exact absurd hfa ha
    | ok => simp [Evidence.receiveEvidenceList, hfa, hrest]
    | transientErr => simp [Evidence.receiveEvidenceList, hfa, hrest]

/-- C5: in the evidence reactor's Receive loop over a decoded batch, an
ErrEvidenceInvalid result from AddEvidence disconnects the source peer and
drops the rest of the batch, while successful or transiently failing items
let processing continue with the peer still connected. -/
theorem c5_receive_invalid_disconnects (f : Nat → Evidence.AddEvidenceResult)
    (evis pre post : List Nat) (e : Nat) :
    ((∀ x ∈ evis, f x ≠ Evidence.AddEvidenceResult.evidenceInvalid) →
      Evidence.receiveEvidenceList f evis = (evis, false)) ∧
    ((∀ x ∈ pre, f x ≠ Evidence.AddEvidenceResult.evidenceInvalid) →
      f e = Evidence.AddEvidenceResult.evidenceInvalid →
      Evidence.receiveEvidenceList f (pre ++ e :: post) = (pre ++ [e], true)) :=
  ⟨receiveEvidenceList_all_valid f evis, receiveEvidenceList_first_invalid f pre e post⟩

/-- Witness for C5: under the sample oracle `addEvW` (item 3 invalid, item 4
transient), the batch [1, 2, 4, 5] is fully processed without disconnect,
and the batch [1, 2, 3, 5] is cut after item 3 with the peer disconnected. -/
theorem c5_witness :
    Evidence.receiveEvidenceList Evidence.addEvW [1, 2, 4, 5] = ([1, 2, 4, 5], false) ∧
    Evidence.receiveEvidenceList Evidence.addEvW [1, 2, 3, 5] = ([1, 2, 3], true) :=
  ⟨(c5_receive_invalid_disconnects Evidence.addEvW [1, 2, 4, 5] [1, 2] [5] 3).1 (by decide),
   (c5_receive_invalid_disconnects Evidence.addEvW [1, 2, 4, 5] [1, 2] [5] 3).2
     (by decide) (by decide)⟩

/-- C8, evaluation at the failing input: the Go field `POLRound` is a
`uint32`, so the documented sentinel -1 is unrepresentable; the Go
conversion of -1 to `uint32` is 4294967295, a proposal built with it stores
4294967295 (not a value distinct from all valid rounds), and the invariant
pol_round < round fails for it. -/
theorem c8_pol_round_sentinel_eval :
    KTypes.uint32OfInt (-1) = 4294967295 ∧
    (KTypes.NewProposal 42 3 (KTypes.uint32OfInt (-1)) 0 1700000000).POLRound = 4294967295 ∧
    (KTypes.NewProposal 42 3 (KTypes.uint32OfInt (-1)) 0 1700000000).Round = 3 ∧
    ¬((KTypes.NewProposal 42 3 (KTypes.uint32OfInt (-1)) 0 1700000000).POLRound <
      (KTypes.NewProposal 42 3 (KTypes.uint32OfInt (-1)) 0 1700000000).Round) := by
  decide

/-- C10: `checkSendEvidenceMessage` only ever returns (empty, true),
(empty, false), or (the singleton input evidence, false); it never returns
evidence together with a retry request. -/
theorem c10_check_send_result_shape (peerState : Option Nat)
    (mb md lbt : Int) (ev : Evidence.EvidenceItem) :
    Evidence.checkSendEvidenceMessage peerState mb md lbt ev = ([], true) ∨
    Evidence.checkSendEvidenceMessage peerState mb md lbt ev = ([], false) ∨
    Evidence.checkSendEvidenceMessage peerState mb md lbt ev = ([ev], false) := by
  cases peerState with
  | none => exact Or.inl rfl
  | some ph =>
    simp only [Evidence.checkSendEvidenceMessage]
    split_ifs <;> simp

/-- `GetHeader` changes the state only by (possibly) populating the header
cache. -/
theorem GetHeader_state (hc : Blockchain.HCState) (hash height : Nat) :
    ∃ cache, (Blockchain.GetHeader hc hash height).2 = { hc with headerCache := cache } := by
  unfold Blockchain.GetHeader
  cases h1 : hc.headerCache hash with
  | some header => exact ⟨hc.headerCache, rfl⟩
  | none =>
    cases h2 : hc.dbHeaders hash height with
    | none => exact ⟨hc.headerCache, rfl⟩
    | some header =>
      exact ⟨fun h => if h = hash then some header else hc.headerCache h, rfl⟩

/-- The database view of the state is untouched by `GetHeader`. -/
theorem GetHeader_dbHeaders (hc : Blockchain.HCState) (hash height : Nat) :
    (Blockchain.GetHeader hc hash height).2.dbHeaders = hc.dbHeaders := by
  obtain ⟨c, e⟩ := GetHeader_state hc hash height
  rw [e]

/-- The canonical-hash table is untouched by `GetHeader`. -/
theorem GetHeader_dbCanonical (hc : Blockchain.HCState) (hash height : Nat) :
    (Blockchain.GetHeader hc hash height).2.dbCanonical = hc.dbCanonical := by
  obtain ⟨c, e⟩ := GetHeader_state hc hash height
  rw [e]

/-- The persisted head pointer is untouched by `GetHeader`. -/
theorem GetHeader_dbHeadHeaderHash (hc : Blockchain.HCState) (hash height : Nat) :
    (Blockchain.GetHeader hc hash height).2.dbHeadHeaderHash = hc.dbHeadHeaderHash := by
  obtain ⟨c, e⟩ := GetHeader_state hc hash height
  rw [e]

/-- The height cache is untouched by `GetHeader`. -/
theorem GetHeader_heightCache (hc : Blockchain.HCState) (hash height : Nat) :
    (Blockchain.GetHeader hc hash height).2.heightCache = hc.heightCache := by
  obtain ⟨c, e⟩ := GetHeader_state hc hash height
  rw [e]

/-- The genesis header is untouched by `GetHeader`. -/
theorem GetHeader_genesisHeader (hc : Blockchain.HCState) (hash height : Nat) :
    (Blockchain.GetHeader hc hash height).2.genesisHeader = hc.genesisHeader := by
  obtain ⟨c, e⟩ := GetHeader_state hc hash height
  rw [e]

/-- The database of headers is untouched by the rewind loop. -/
theorem setHeadLoop_dbHeaders (head : Nat) :
    ∀ (fuel : Nat) (hc : Blockchain.HCState) (batch : Blockchain.Batch)
      (calls : List (Nat × Nat)),
      (Blockchain.setHeadLoop head fuel hc batch calls).1.dbHeaders = hc.dbHeaders := by
  intro fuel
  induction fuel with
  | zero => intro hc batch calls; rfl
  | succ n ih =>
    intro hc batch calls
    unfold Blockchain.setHeadLoop
    split
    · rfl
    · next hdr heq =>
      split_ifs with hgt
      · rw [ih]
        exact GetHeader_dbHeaders hc hdr.lastCommitHash (hdr.height - 1)
      · rfl

/-- The canonical-hash table is untouched by the rewind loop. -/
theorem setHeadLoop_dbCanonical (head : Nat) :
    ∀ (fuel : Nat) (hc : Blockchain.HCState) (batch : Blockchain.Batch)
      (calls : List (Nat × Nat)),
      (Blockchain.setHeadLoop head fuel hc batch calls).1.dbCanonical = hc.dbCanonical := by
  intro fuel
  induction fuel with
  | zero => intro hc batch calls; rfl
  | succ n ih =>
    intro hc batch calls
    unfold Blockchain.setHeadLoop
    split
    · rfl
    · next hdr heq =>
      split_ifs with hgt
      · rw [ih]
        exact GetHeader_dbCanonical hc hdr.lastCommitHash (hdr.height - 1)
      · rfl

/-- The height cache is untouched by the rewind loop. -/
theorem setHeadLoop_heightCache (head : Nat) :
    ∀ (fuel : Nat) (hc : Blockchain.HCState) (batch : Blockchain.Batch)
      (calls : List (Nat × Nat)),
      (Blockchain.setHeadLoop head fuel hc batch calls).1.heightCache = hc.heightCache := by
  intro fuel
  induction fuel with
  | zero => intro hc batch calls; rfl
  | succ n ih =>
    intro hc batch calls
    unfold Blockchain.setHeadLoop
    split
    · rfl
    · next hdr heq =>
      split_ifs with hgt
      · rw [ih]
        exact GetHeader_heightCache hc hdr.lastCommitHash (hdr.height - 1)
      · rfl

/-- The genesis header is untouched by the rewind loop. -/
theorem setHeadLoop_genesisHeader (head : Nat) :
    ∀ (fuel : Nat) (hc : Blockchain.HCState) (batch : Blockchain.Batch)
      (calls : List (Nat × Nat)),
      (Blockchain.setHeadLoop head fuel hc batch calls).1.genesisHeader = hc.genesisHeader := by
  intro fuel
  induction fuel with
  | zero => intro hc batch calls; rfl
  | succ n ih =>
    intro hc batch calls
    unfold Blockchain.setHeadLoop
    split
    · rfl
    · next hdr heq =>
      split_ifs with hgt
      · rw [ih]
        exact GetHeader_genesisHeader hc hdr.lastCommitHash (hdr.height - 1)
      · rfl

/-- The rewind loop keeps the delete-callback invocation list and the
batched header deletions in lockstep, and never queues canonical-hash
deletions. -/
theorem setHeadLoop_batch (head : Nat) :
    ∀ (fuel : Nat) (hc : Blockchain.HCState) (batch : Blockchain.Batch)
      (calls : List (Nat × Nat)),
      batch.delHeaders = calls →
      ((Blockchain.setHeadLoop head fuel hc batch calls).2.1.delHeaders =
        (Blockchain.setHeadLoop head fuel hc batch calls).2.2 ∧
       (Blockchain.setHeadLoop head fuel hc batch calls).2.1.delCanonical =
        batch.delCanonical) := by
  intro fuel
  induction fuel with
  | zero => intro hc batch calls h; exact ⟨h, rfl⟩
  | succ n ih =>
    intro hc batch calls h
    unfold Blockchain.setHeadLoop
    split
    · exact ⟨h, rfl⟩
    · next hdr heq =>
      split_ifs with hgt
      · exact ih _ _ _ (by rw [h])
      · exact ⟨h, rfl⟩

/-- Every (hash, height) pair recorded by the rewind loop sits strictly
above the rewind target. -/
theorem setHeadLoop_calls_gt (head : Nat) :
    ∀ (fuel : Nat) (hc : Blockchain.HCState) (batch : Blockchain.Batch)
      (calls : List (Nat × Nat)),
      (∀ p ∈ calls, head < p.2) →
      ∀ p ∈ (Blockchain.setHeadLoop head fuel hc batch calls).2.2, head < p.2 := by
  intro fuel
  induction fuel with
  | zero => intro hc batch calls h; exact h
  | succ n ih =>
    intro hc batch calls h
    unfold Blockchain.setHeadLoop
    split
    · exact h
    · next hdr heq =>
      split_ifs with hgt
      · refine ih _ _ _ ?_
        intro p hp
        rcases List.mem_append.mp hp with hp | hp
        · exact h p hp
        · rcases List.mem_singleton.mp hp with rfl
          exact hgt
      · exact h

/-- Looking up the predecessor of a stored header by its last_commit_hash
at one height below returns, if anything, a stored header exactly one
height below, and keeps the header cache consistent. -/
theorem GetHeader_pred (hc : Blockchain.HCState) (hdr : Blockchain.KHeader)
    (hk : Blockchain.heightKeyed hc.dbHeaders)
    (pl : Blockchain.parentLinked hc.dbHeaders)
    (cc : Blockchain.cacheConsistent hc.dbHeaders hc.headerCache)
    (hin : Blockchain.inDb hc.dbHeaders hdr) :
    (∀ p, (Blockchain.GetHeader hc hdr.lastCommitHash (hdr.height - 1)).1 = some p →
      p.height + 1 = hdr.height ∧ Blockchain.inDb hc.dbHeaders p) ∧
    Blockchain.cacheConsistent hc.dbHeaders
      (Blockchain.GetHeader hc hdr.lastCommitHash (hdr.height - 1)).2.headerCache := by
  obtain ⟨h0, hh0⟩ := hin
  unfold Blockchain.GetHeader
  cases h1 : hc.headerCache hdr.lastCommitHash with
  | some q =>
    refine ⟨?_, cc⟩
    intro p hp
    cases hp
    have hq := cc _ _ h1
    exact ⟨pl h0 hdr.height hdr q.height q hh0 hq, ⟨hdr.lastCommitHash, hq⟩⟩
  | none =>
    cases h2 : hc.dbHeaders hdr.lastCommitHash (hdr.height - 1) with
    | none =>
      refine ⟨?_, cc⟩
      intro p hp
      cases hp
    | some q =>
      have hq1 : q.height = hdr.height - 1 := hk _ _ _ h2
      have hq2 : hdr.height - 1 + 1 = hdr.height := pl h0 hdr.height hdr _ q hh0 h2
      have hq3 : hc.dbHeaders hdr.lastCommitHash q.height = some q := by rw [hq1]; exact h2
      constructor
      · intro p hp
        cases hp
        exact ⟨by omega, ⟨hdr.lastCommitHash, hq3⟩⟩
      · intro h hdr2 hh
        dsimp only at hh
        by_cases he : h = hdr.lastCommitHash
        · subst he
          rw [if_pos rfl] at hh
          cases hh
          exact hq3
        · rw [if_neg he] at hh
          exact cc _ _ hh

/-- Under the store and cache well-formedness hypotheses and with enough
fuel, the rewind loop ends either on a nil current header (a missing
predecessor) or on a header at or below the rewind target. -/
theorem setHeadLoop_current (head : Nat) :
    ∀ (fuel : Nat) (hc : Blockchain.HCState) (batch : Blockchain.Batch)
      (calls : List (Nat × Nat)),
      Blockchain.heightKeyed hc.dbHeaders →
      Blockchain.parentLinked hc.dbHeaders →
      Blockchain.cacheConsistent hc.dbHeaders hc.headerCache →
      (∀ hdr, hc.currentHeader = some hdr →
        Blockchain.inDb hc.dbHeaders hdr ∧ hdr.height < head + fuel) →
      ((Blockchain.setHeadLoop head fuel hc batch calls).1.currentHeader = none ∨
       ∃ hdr, (Blockchain.setHeadLoop head fuel hc batch calls).1.currentHeader = some hdr ∧
         hdr.height ≤ head) := by
  intro fuel
  induction fuel with
  | zero =>
    intro hc batch calls hk pl cc hinv
    cases hcur : hc.currentHeader with
    | none => exact Or.inl hcur
    | some hdr =>
      have := (hinv hdr hcur).2
      exact Or.inr ⟨hdr, hcur, by omega⟩
  | succ n ih =>
    intro hc batch calls hk pl cc hinv
    unfold Blockchain.setHeadLoop
    split
    · next heq => exact Or.inl heq
    · next hdr heq =>
      split_ifs with hgt
      · have hcur := hinv hdr heq
        have hpred := GetHeader_pred hc hdr hk pl cc hcur.1
        have hdb := GetHeader_dbHeaders hc hdr.lastCommitHash (hdr.height - 1)
        refine ih _ _ _ ?_ ?_ ?_ ?_
        · show Blockchain.heightKeyed
            (Blockchain.GetHeader hc hdr.lastCommitHash (hdr.height - 1)).2.dbHeaders
          rw [hdb]; exact hk
        · show Blockchain.parentLinked
            (Blockchain.GetHeader hc hdr.lastCommitHash (hdr.height - 1)).2.dbHeaders
          rw [hdb]; exact pl
        · show Blockchain.cacheConsistent
            (Blockchain.GetHeader hc hdr.lastCommitHash (hdr.height - 1)).2.dbHeaders
            (Blockchain.GetHeader hc hdr.lastCommitHash (hdr.height - 1)).2.headerCache
          rw [hdb]; exact hpred.2
        · intro hdr2 hh2
          have hp := hpred.1 hdr2 hh2
          show Blockchain.inDb
            (Blockchain.GetHeader hc hdr.lastCommitHash (hdr.height - 1)).2.dbHeaders hdr2 ∧
            hdr2.height < head + n
          rw [hdb]
          have := hcur.2
          exact ⟨hp.2, by omega⟩
      · exact Or.inr ⟨hdr, heq, by omega⟩

/-- Membership in the canonical-deletion range: exactly the heights in
(head, h0]. -/
theorem mem_deleteCanonicalFrom (head : Nat) :
    ∀ (h0 i : Nat), i ∈ Blockchain.deleteCanonicalFrom head h0 ↔ (head < i ∧ i ≤ h0) := by
  intro h0
  induction h0 with
  | zero =>
    intro i
    unfold Blockchain.deleteCanonicalFrom
    simp only [List.not_mem_nil, false_iff]
    omega
  | succ n ih =>
    intro i
    unfold Blockchain.deleteCanonicalFrom
    split_ifs with h
    · rw [List.mem_cons, ih]
      omega
    · simp only [List.not_mem_nil, false_iff]
      omega

/-- C9: after `SetHead(new_head, delete_callback)` returns, the delete
callback and `DeleteHeader` were invoked on exactly the same walked
(hash, height) pairs, all with height above the new head; the canonical
hash of every height above the new head is gone from the store; both
caches are purged; and the hash of the final current header — the genesis
header if the backward walk hit a missing predecessor, otherwise a header
at or below the new head — is persisted as the head header hash.  The
hypotheses state that the store is keyed consistently, predecessor links
descend by one height, the header cache agrees with the store, the current
header is stored, and no canonical entry sits above the current height. -/
theorem c9_set_head (hc : Blockchain.HCState) (head : Nat) (cur : Blockchain.KHeader)
    (hcur : hc.currentHeader = some cur)
    (hk : Blockchain.heightKeyed hc.dbHeaders)
    (pl : Blockchain.parentLinked hc.dbHeaders)
    (cc : Blockchain.cacheConsistent hc.dbHeaders hc.headerCache)
    (hin : Blockchain.inDb hc.dbHeaders cur)
    (hcanon : ∀ i, cur.height < i → hc.dbCanonical i = none) :
    ((Blockchain.SetHead hc head).2.1 = (Blockchain.SetHead hc head).2.2) ∧
    (∀ p ∈ (Blockchain.SetHead hc head).2.1, head < p.2) ∧
    (∀ i, head < i → (Blockchain.SetHead hc head).1.dbCanonical i = none) ∧
    (∀ h, (Blockchain.SetHead hc head).1.headerCache h = none) ∧
    (∀ h, (Blockchain.SetHead hc head).1.heightCache h = none) ∧
    (∃ hdr, (Blockchain.SetHead hc head).1.currentHeader = some hdr ∧
      (Blockchain.SetHead hc head).1.currentHeaderHash = hdr.hhash ∧
      (Blockchain.SetHead hc head).1.dbHeadHeaderHash = hdr.hhash ∧
      (hdr = hc.genesisHeader ∨ hdr.height ≤ head)) := by
  have hfin := setHeadLoop_current head (cur.height + 1) hc ⟨[], []⟩ [] hk pl cc
    (by intro hdr hh; rw [hcur] at hh; cases hh; exact ⟨hin, by omega⟩)
  have hsync := setHeadLoop_batch head (cur.height + 1) hc ⟨[], []⟩ [] rfl
  have hcallsgt := setHeadLoop_calls_gt head (cur.height + 1) hc ⟨[], []⟩ []
    (by intro p hp; exact absurd hp (List.not_mem_nil p))
  have hdbC := setHeadLoop_dbCanonical head (cur.height + 1) hc ⟨[], []⟩ []
  have hgen := setHeadLoop_genesisHeader head (cur.height + 1) hc ⟨[], []⟩ []
  rcases hfin with hno | ⟨hdr, hsome, hle⟩
  · simp only [Blockchain.SetHead, Blockchain.batchWrite, hcur, hno, hsync.2]
    refine ⟨hsync.1.symm, hcallsgt, ?_, fun h => trivial, fun h => trivial,
      hc.genesisHeader, by rw [hgen], by rw [hgen], by rw [hgen], Or.inl rfl⟩
    intro i hi
    rw [List.nil_append]
    by_cases him : i ∈ Blockchain.deleteCanonicalFrom head cur.height
    · rw [if_pos him]
    · rw [if_neg him, hdbC]
      apply hcanon
      have := (mem_deleteCanonicalFrom head cur.height i).not.mp him
      omega
  · simp only [Blockchain.SetHead, Blockchain.batchWrite, hcur, hsome, hsync.2]
    refine ⟨hsync.1.symm, hcallsgt, ?_, fun h => trivial, fun h => trivial,
      hdr, rfl, rfl, rfl, Or.inr hle⟩
    intro i hi
    rw [List.nil_append]
    by_cases him : i ∈ Blockchain.deleteCanonicalFrom head cur.height
    · rw [if_pos him]
    · rw [if_neg him, hdbC]
      apply hcanon
      have := (mem_deleteCanonicalFrom head cur.height i).not.mp him
      omega

/-- The sample store keys every header by its height. -/
theorem dbW_heightKeyed : Blockchain.heightKeyed Blockchain.dbW := by
  intro h n hdr e
  unfold Blockchain.dbW at e
  split_ifs at e with c1 c2 c3
  · cases e
    simp only [Blockchain.hW2]
    omega
  · cases e
    simp only [Blockchain.hW1]
    omega
  · cases e
    simp only [Blockchain.hW0]
    omega

/-- The sample store's predecessor links descend by exactly one height. -/
theorem dbW_parentLinked : Blockchain.parentLinked Blockchain.dbW := by
  intro h n hdr m pred e1 e2
  unfold Blockchain.dbW at e1 e2
  split_ifs at e1 with c1 c2 c3
  · cases e1
    simp only [Blockchain.hW2] at e2
    split_ifs at e2 with d1 d2 d3
    · omega
    · omega
    · omega
  · cases e1
    simp only [Blockchain.hW1] at e2
    split_ifs at e2 with d1 d2 d3
    · omega
    · omega
    · omega
  · cases e1
    simp only [Blockchain.hW0] at e2
    split_ifs at e2 with d1 d2 d3
    · omega
    · omega
    · omega

/-- The sample state's empty header cache is consistent with its store. -/
theorem hcW_cacheConsistent :
    Blockchain.cacheConsistent Blockchain.hcW.dbHeaders Blockchain.hcW.headerCache := by
  intro h hdr e
  simp [Blockchain.hcW] at e

/-- The sample canonical table has no entry above the current height 2. -/
theorem canonW_none : ∀ i, Blockchain.hW2.height < i → Blockchain.canonW i = none := by
  intro i hi
  simp only [Blockchain.hW2] at hi
  unfold Blockchain.canonW
  split_ifs with a b c
  · omega
  · omega
  · omega
  · rfl

/-- Witness for C9: the theorem applied to the concrete three-header chain
`hcW` rewound to head 1, with every hypothesis discharged on the sample
store. -/
theorem c9_witness :
    ((Blockchain.SetHead Blockchain.hcW 1).2.1 = (Blockchain.SetHead Blockchain.hcW 1).2.2) ∧
    (∀ p ∈ (Blockchain.SetHead Blockchain.hcW 1).2.1, 1 < p.2) ∧
    (∀ i, 1 < i → (Blockchain.SetHead Blockchain.hcW 1).1.dbCanonical i = none) ∧
    (∀ h, (Blockchain.SetHead Blockchain.hcW 1).1.headerCache h = none) ∧
    (∀ h, (Blockchain.SetHead Blockchain.hcW 1).1.heightCache h = none) ∧
    (∃ hdr, (Blockchain.SetHead Blockchain.hcW 1).1.currentHeader = some hdr ∧
      (Blockchain.SetHead Blockchain.hcW 1).1.currentHeaderHash = hdr.hhash ∧
      (Blockchain.SetHead Blockchain.hcW 1).1.dbHeadHeaderHash = hdr.hhash ∧
      (hdr = Blockchain.hcW.genesisHeader ∨ hdr.height ≤ 1)) :=
  c9_set_head Blockchain.hcW 1 Blockchain.hW2 rfl dbW_heightKeyed dbW_parentLinked
    hcW_cacheConsistent ⟨102, by decide⟩ canonW_none

end GoKardia
